import Mathlib

/-!
A shallow embedding of the undo/redo engine in src/rust/src/lib.rs
(module undo, struct SQLiteUndoRedo / Undo), together with an abstract
model of the SQLite collaborator that the engine drives:

* the session table undolog(seq INTEGER PRIMARY KEY, sql TEXT) is the
  field log : List (Int × Stmt), kept in insertion order; every insert
  receives seq = coalesce(max(seq),0)+1, so the list is ascending in seq
  for every state the engine itself produces;
* the registered tables are one finite map from (table index, rowid) to a
  row of column values; the compensating SQL text stored in undolog is
  abstracted to the inductive type Stmt (DELETE / INSERT / UPDATE against
  one rowid, exactly the three statement shapes the trigger factory of
  _create_triggers emits);
* executing a statement fires the change-recording triggers, which append
  the compensating statement of the change to undolog: this is applyLogged;
* the temporary triggers of the connection are the field
  tempTriggers : List String.

Rust's Vec push/pop at the back becomes a Lean List used at the head:
the head of undostack / redostack is the top of the stack.
-/

namespace SqlurModel

/-- Column values of one table row (SQL values abstracted to integers). -/
abbrev Row := List Int

/-- Identifies a physical row: (registered-table index, rowid). -/
abbrev Key := Nat × Nat

/-- Lexicographic order on keys; the representation order of the database map. -/
def keyLt (a b : Key) : Prop := a.1 < b.1 ∨ (a.1 = b.1 ∧ a.2 < b.2)

instance instDecidableKeyLt (a b : Key) : Decidable (keyLt a b) := by
  unfold keyLt; infer_instance

/-- The database contents: an association list from keys to rows, kept
sorted by keyLt (one entry per physical row, as in a real table). -/
abbrev Db := List (Key × Row)

def dbLookup (k : Key) : Db → Option Row
  | [] => none
  | p :: rest => if p.1 = k then some p.2 else dbLookup k rest

def dbErase (k : Key) : Db → Db
  | [] => []
  | p :: rest => if p.1 = k then rest else p :: dbErase k rest

def dbInsert (k : Key) (v : Row) : Db → Db
  | [] => [(k, v)]
  | p :: rest => if keyLt k p.1 then (k, v) :: p :: rest else p :: dbInsert k v rest

def dbSet (k : Key) (v : Row) : Db → Db
  | [] => []
  | p :: rest => if p.1 = k then (k, v) :: rest else p :: dbSet k v rest

/-- The representation invariant of the abstract table store: entries are
strictly ascending in key order (hence keys occur at most once). -/
def dbSorted (db : Db) : Prop := List.Pairwise (fun p q => keyLt p.1 q.1) db

/-- The rows of one registered table, in storage order: the projection the
engine's undo/redo promises to restore. -/
def tableRows (t : Nat) (db : Db) : List (Nat × Row) :=
  (db.filter (fun p => decide (p.1.1 = t))).map (fun p => (p.1.2, p.2))

/-- The three statement shapes the trigger factory writes into undolog:
DELETE FROM t WHERE rowid=r, INSERT INTO t(rowid,c1..cN) VALUES(r,v1..vN),
UPDATE t SET c1=v1,..,cN=vN WHERE rowid=r. -/
inductive Stmt where
  | del (k : Key)
  | ins (k : Key) (v : Row)
  | upd (k : Key) (v : Row)
  deriving DecidableEq

/-- Execute one statement against the tables, with the change-recording
triggers of _create_triggers installed.  Returns the new table store and
the compensating statement the fired trigger appended to undolog (none
when the statement touched no row, so no trigger fired).  An INSERT whose
rowid already exists violates the INTEGER PRIMARY KEY and is a database
error (modelled as none for the whole execution). -/
def applyLogged : Stmt → Db → Option (Db × Option Stmt)
  | Stmt.del k, db =>
    match dbLookup k db with
    | some v => some (dbErase k db, some (Stmt.ins k v))
    | none => some (db, none)
  | Stmt.ins k v, db =>
    match dbLookup k db with
    | some _ => none
    | none => some (dbInsert k v db, some (Stmt.del k))
  | Stmt.upd k v, db =>
    match dbLookup k db with
    | some w => some (dbSet k v db, some (Stmt.upd k w))
    | none => some (db, none)

/-- Execute a list of statements in order (the replay loop of _step),
collecting the compensating statements in the order the triggers appended
them to undolog.  A database error aborts the whole replay. -/
def replay : List Stmt → Db → Option (Db × List Stmt)
  | [], db => some (db, [])
  | s :: l, db =>
    match applyLogged s db with
    | none => none
    | some (db1, oc) =>
      match replay l db1 with
      | none => none
      | some (db2, cs) => some (db2, oc.toList ++ cs)

/-- SELECT coalesce(max(seq),0) FROM undolog. -/
def maxSeq (log : List (Int × Stmt)) : Int :=
  List.foldr (fun p m => max p.1 m) 0 log

/-- seq lies in the inclusive interval [b, e]. -/
def inRange (b e s : Int) : Bool := decide (b ≤ s) && decide (s ≤ e)

/-- SELECT sql FROM undolog WHERE seq>=b AND seq<=e ORDER BY seq DESC
(the log list is in ascending seq order, so reversing the filtered rows
realises the descending order). -/
def fetchDesc (b e : Int) (log : List (Int × Stmt)) : List Stmt :=
  ((log.filter (fun p => inRange b e p.1)).reverse).map (fun p => p.2)

/-- DELETE FROM undolog WHERE seq>=b AND seq<=e. -/
def deleteRange (b e : Int) (log : List (Int × Stmt)) : List (Int × Stmt) :=
  log.filter (fun p => !(inRange b e p.1))

/-- Append compensating statements to undolog one at a time, each insert
receiving seq = coalesce(max(seq),0)+1 from the INTEGER PRIMARY KEY. -/
def appendComps (log : List (Int × Stmt)) : List Stmt → List (Int × Stmt)
  | [] => log
  | c :: cs => appendComps (log ++ [(maxSeq log + 1, c)]) cs

/-- Specification helper for appendComps: consecutive seqs starting at m+1. -/
def tagFrom (m : Int) : List Stmt → List (Int × Stmt)
  | [] => []
  | c :: cs => (m + 1, c) :: tagFrom (m + 1) cs

/-- The in-memory state of struct Undo plus the abstract database state
the engine drives (undolog, tables, temporary triggers). -/
structure EngineState where
  active : Bool
  undostack : List (Int × Int)
  redostack : List (Int × Int)
  pending : List Int
  firstlog : Int
  freeze : Option Int
  log : List (Int × Stmt)
  db : Db
  tempTriggers : List String
  deriving DecidableEq

/-- Undo::new(): the fresh engine before activation. -/
def initState (db : Db) : EngineState :=
  { active := false, undostack := [], redostack := [], pending := [],
    firstlog := 1, freeze := none, log := [], db := db, tempTriggers := [] }

/-- The trigger names _create_triggers installs for the given tables
(three temporary triggers _t_it, _t_ut, _t_dt per table; table names are
abstracted to their printed index). -/
def conventionTriggers (tables : List String) : List String :=
  tables.foldr
    (fun t acc =>
      ("_" ++ t ++ "_it") :: ("_" ++ t ++ "_ut") :: ("_" ++ t ++ "_dt") :: acc)
    []

/-- t is a suffix of s (over the character lists). -/
def listEndsWith (t s : List Char) : Bool :=
  decide (t = List.drop (s.length - t.length) s)

/-- The factory naming convention of the spec: _<table>_it / _<table>_ut /
_<table>_dt (the commented-out Tcl filter regexp in _drop_triggers). -/
def matchesConvention (s : String) : Bool :=
  match s.data with
  | [] => false
  | c :: _ =>
    decide (c = '_') &&
      (listEndsWith ['_', 'i', 't'] s.data || listEndsWith ['_', 'u', 't'] s.data ||
        listEndsWith ['_', 'd', 't'] s.data)

/-- activate(args): install triggers (_create_triggers drops and recreates
undolog, so the log is empty afterwards), reset the stacks, set active and
freeze, then _start_interval. -/
def activateOp (st : EngineState) (tables : List String) : EngineState :=
  if st.active then st
  else
    { st with
      tempTriggers := st.tempTriggers ++ conventionTriggers tables,
      log := [],
      undostack := [], redostack := [],
      active := true, freeze := some (-1),
      firstlog := 1 }

/-- deactivate(): _drop_triggers drops EVERY trigger found in
sqlite_temp_schema (the Tcl naming-convention filter is commented out in
the Rust source) and drops undolog; then the stacks are reset, active is
cleared and freeze is set to -1. -/
def deactivateOp (st : EngineState) : EngineState :=
  if !st.active then st
  else
    { st with
      tempTriggers := [],
      log := [],
      undostack := [], redostack := [],
      active := false, freeze := some (-1) }

/-- freeze(): no-op when freeze is None; warn-and-no-op when already
frozen (freeze >= Some(0)); otherwise record max(seq) from undolog. -/
def freezeOp (st : EngineState) : EngineState :=
  match st.freeze with
  | none => st
  | some k => if 0 ≤ k then st else { st with freeze := some (maxSeq st.log) }

/-- unfreeze(): no-op when freeze is None; warn-and-no-op when not frozen
(freeze < Some(0)); otherwise DELETE FROM undolog WHERE seq>k and set
freeze back to -1. -/
def unfreezeOp (st : EngineState) : EngineState :=
  match st.freeze with
  | none => st
  | some k =>
    if k < 0 then st
    else
      { st with
        log := st.log.filter (fun p => !(decide (k < p.1))),
        freeze := some (-1) }

/-- barrier(): clear pending; if inactive return; compute end = max(seq),
clamp it to the freeze point when frozen (freeze >= Some(0) and
Some(end) > freeze), remember begin = firstlog, run _start_interval, and
unless no rows were logged (begin equals the new firstlog) push
(begin, end) onto the undo stack and empty the redo stack. -/
def barrier (st : EngineState) : EngineState :=
  if !st.active then { st with pending := [] }
  else
    let e0 := maxSeq st.log
    let e1 :=
      match st.freeze with
      | some k => if 0 ≤ k ∧ k < e0 then k else e0
      | none => e0
    let b := st.firstlog
    let fl := maxSeq st.log + 1
    if b = fl then { st with pending := [], firstlog := fl }
    else
      { st with
        pending := [], firstlog := fl,
        undostack := (b, e1) :: st.undostack,
        redostack := [] }

/-- _step(v1, v2): pop the top interval of the source stack — the Rust
source pops with .pop().unwrap(), so an empty source stack is a panic,
modelled as none; fetch the sql of the interval in descending seq order,
delete those rows, recompute firstlog, replay the statements (their
triggers append the mirror interval's rows; a failing statement is a
database error, none), push (new firstlog, new max(seq)) onto the target
stack, and run _start_interval.  useUndo = true is undo()
(v1 = undostack, v2 = redostack); false is redo(). -/
def stepOp (st : EngineState) (useUndo : Bool) : Option EngineState :=
  match (if useUndo then st.undostack else st.redostack) with
  | [] => none
  | (b, e) :: rest =>
    match replay (fetchDesc b e st.log) st.db with
    | none => none
    | some (db1, comps) =>
      let log1 := deleteRange b e st.log
      let log2 := appendComps log1 comps
      let newBegin := maxSeq log1 + 1
      let newEnd := maxSeq log2
      some { st with
        db := db1, log := log2,
        firstlog := newEnd + 1,
        undostack := if useUndo then rest else (newBegin, newEnd) :: st.undostack,
        redostack := if useUndo then (newBegin, newEnd) :: st.redostack else rest }

/-- One caller mutation against a registered table while the engine's
triggers are installed: the statement executes and the fired trigger
appends its compensating statement to undolog with
seq = coalesce(max(seq),0)+1.  none is a database error. -/
def userMutation (s : Stmt) (st : EngineState) : Option EngineState :=
  match applyLogged s st.db with
  | none => none
  | some (db1, oc) =>
    some { st with
      db := db1,
      log :=
        match oc with
        | some c => st.log ++ [(maxSeq st.log + 1, c)]
        | none => st.log }

/-- A sequence of caller mutations, left to right. -/
def applyMuts : List Stmt → EngineState → Option EngineState
  | [], st => some st
  | s :: ms, st =>
    match userMutation s st with
    | none => none
    | some st1 => applyMuts ms st1

/-- INSERT INTO tbl1 VALUES(v) receiving rowid r (tbl1 is table 0). -/
def mIns (r : Nat) (v : Int) : EngineState → Option EngineState :=
  userMutation (Stmt.ins (0, r) [v])

/-- DELETE FROM tbl1 WHERE rowid=r. -/
def mDel (r : Nat) : EngineState → Option EngineState :=
  userMutation (Stmt.del (0, r))

/-- The state right after activate(["tbl1"]) on a fresh connection with an
empty tbl1 (the setup of the test module in src/rust/src/lib.rs). -/
def stActive : EngineState :=
  { active := true, undostack := [], redostack := [], pending := [],
    firstlog := 1, freeze := some (-1), log := [], db := [],
    tempTriggers := ["_tbl1_it", "_tbl1_ut", "_tbl1_dt"] }

/-- After INSERT INTO tbl1 VALUES(23); barrier() — scenario S1 of the spec
and test_barrier of the source. -/
def stBar1 : EngineState :=
  { active := true, undostack := [(1, 1)], redostack := [], pending := [],
    firstlog := 2, freeze := some (-1),
    log := [(1, Stmt.del (0, 1))], db := [((0, 1), [23])],
    tempTriggers := ["_tbl1_it", "_tbl1_ut", "_tbl1_dt"] }

/-- stBar1 after one undo(): the state of test_undo_insert, in which the
redo stack is non-empty and no rows were logged since the interval opened. -/
def stUndo1 : EngineState :=
  { active := true, undostack := [], redostack := [(1, 1)], pending := [],
    firstlog := 2, freeze := some (-1),
    log := [(1, Stmt.ins (0, 1) [23])], db := [],
    tempTriggers := ["_tbl1_it", "_tbl1_ut", "_tbl1_dt"] }

/-- The frozen state of scenario S5 just before its final barrier():
activate; INSERT 23; barrier; freeze (freeze = 1); INSERT 42. -/
def stFrozen : EngineState :=
  { active := true, undostack := [(1, 1)], redostack := [], pending := [],
    firstlog := 2, freeze := some 1,
    log := [(1, Stmt.del (0, 1)), (2, Stmt.del (0, 2))],
    db := [((0, 1), [23]), ((0, 2), [42])],
    tempTriggers := ["_tbl1_it", "_tbl1_ut", "_tbl1_dt"] }

/-- Scenario S5 after its final barrier(): the frozen barrier pushed the
empty interval (2, 1) (test_barrier_while_frozen). -/
def stS5 : EngineState :=
  { active := true, undostack := [(2, 1), (1, 1)], redostack := [],
    pending := [], firstlog := 3, freeze := some 1,
    log := [(1, Stmt.del (0, 1)), (2, Stmt.del (0, 2))],
    db := [((0, 1), [23]), ((0, 2), [42])],
    tempTriggers := ["_tbl1_it", "_tbl1_ut", "_tbl1_dt"] }

/-- stS5 after undo() and then redo(): the repushed top interval carries
the endpoints (3, 2) instead of the original (2, 1). -/
def stS5ur : EngineState :=
  { active := true, undostack := [(3, 2), (1, 1)], redostack := [],
    pending := [], firstlog := 3, freeze := some 1,
    log := [(1, Stmt.del (0, 1)), (2, Stmt.del (0, 2))],
    db := [((0, 1), [23]), ((0, 2), [42])],
    tempTriggers := ["_tbl1_it", "_tbl1_ut", "_tbl1_dt"] }

/-- Reached by activate; INSERT 23; barrier; INSERT 42; barrier; undo;
freeze (freeze = 2); INSERT 69; redo; unfreeze: the redo during the frozen
window pushed (4,4) whose rows the unfreeze then deleted, and firstlog
is left at 5 while max(seq) is back to 1; the engine is NOT frozen. -/
def stPost : EngineState :=
  { active := true, undostack := [(4, 4), (1, 1)], redostack := [],
    pending := [], firstlog := 5, freeze := some (-1),
    log := [(1, Stmt.del (0, 1))],
    db := [((0, 1), [23]), ((0, 2), [42]), ((0, 3), [69])],
    tempTriggers := ["_tbl1_it", "_tbl1_ut", "_tbl1_dt"] }

/-- stPost after one further — unfrozen — barrier(): it pushes the empty
interval (5,1) with begin 5 > end 1, and resets firstlog to 2 although the
interval (4,4) is still on the undo stack. -/
def stBad : EngineState :=
  { active := true, undostack := [(5, 1), (4, 4), (1, 1)], redostack := [],
    pending := [], firstlog := 2, freeze := some (-1),
    log := [(1, Stmt.del (0, 1))],
    db := [((0, 1), [23]), ((0, 2), [42]), ((0, 3), [69])],
    tempTriggers := ["_tbl1_it", "_tbl1_ut", "_tbl1_dt"] }

/-- After activate(["tbl1"]); INSERT INTO tbl1 VALUES(23) — one logged row,
no barrier yet. -/
def stMut1 : EngineState :=
  { active := true, undostack := [], redostack := [], pending := [],
    firstlog := 1, freeze := some (-1),
    log := [(1, Stmt.del (0, 1))], db := [((0, 1), [23])],
    tempTriggers := ["_tbl1_it", "_tbl1_ut", "_tbl1_dt"] }

/-- stBar1 after freeze() (freeze = 1) and two further inserts recorded in
the frozen window (the setup of test_unfreeze, with seqs 2 and 3). -/
def stFroze3 : EngineState :=
  { active := true, undostack := [(1, 1)], redostack := [], pending := [],
    firstlog := 2, freeze := some 1,
    log := [(1, Stmt.del (0, 1)), (2, Stmt.del (0, 2)), (3, Stmt.del (0, 3))],
    db := [((0, 1), [23]), ((0, 2), [42]), ((0, 3), [69])],
    tempTriggers := ["_tbl1_it", "_tbl1_ut", "_tbl1_dt"] }

/-- An active state whose connection also carries a user-created temporary
trigger that does not follow the factory naming convention. -/
def stTrig : EngineState :=
  { active := true, undostack := [], redostack := [], pending := [],
    firstlog := 1, freeze := some (-1), log := [], db := [],
    tempTriggers := ["_tbl1_it", "_tbl1_ut", "_tbl1_dt", "user_trigger"] }

section OrderLemmas

theorem keyLt_trans {a b c : Key} (h1 : keyLt a b) (h2 : keyLt b c) : keyLt a c := by
  rcases a with ⟨a1, a2⟩; rcases b with ⟨b1, b2⟩; rcases c with ⟨c1, c2⟩
  unfold keyLt at *; simp only at *; omega

theorem keyLt_asymm {a b : Key} (h1 : keyLt a b) : ¬ keyLt b a := by
  rcases a with ⟨a1, a2⟩; rcases b with ⟨b1, b2⟩
  unfold keyLt at *; simp only at *; omega

theorem keyLt_ne {a b : Key} (h1 : keyLt a b) : a ≠ b := by
  rcases a with ⟨a1, a2⟩; rcases b with ⟨b1, b2⟩
  unfold keyLt at *; simp only [Prod.mk.injEq, ne_eq, not_and]; omega

theorem keyLt_total {a b : Key} (h : a ≠ b) : keyLt a b ∨ keyLt b a := by
  rcases a with ⟨a1, a2⟩; rcases b with ⟨b1, b2⟩
  simp only [ne_eq, Prod.mk.injEq, not_and] at h
  unfold keyLt; simp only
  by_cases h1 : a1 = b1
  · subst h1; omega
  · omega

end OrderLemmas

section DbLemmas

theorem dbErase_sublist (k : Key) (db : Db) : List.Sublist (dbErase k db) db := by
  induction db with
  | nil => simp [dbErase]
  | cons p rest ih =>
    unfold dbErase
    by_cases h : p.1 = k
    · simp only [h, if_pos rfl]
      exact List.sublist_cons_self p rest
    · simp only [if_neg h]
      exact List.Sublist.cons₂ p ih

theorem dbSorted_erase {db : Db} (k : Key) (h : dbSorted db) : dbSorted (dbErase k db) :=
  h.sublist (dbErase_sublist k db)

theorem mem_dbInsert {q : Key × Row} {k : Key} {v : Row} {db : Db}
    (h : q ∈ dbInsert k v db) : q = (k, v) ∨ q ∈ db := by
  induction db with
  | nil => simpa [dbInsert] using h
  | cons p rest ih =>
    unfold dbInsert at h
    by_cases hlt : keyLt k p.1
    · simp only [if_pos hlt, List.mem_cons] at h
      rcases h with h | h | h
      · exact Or.inl h
      · exact Or.inr (by simp [h])
      · exact Or.inr (List.mem_cons_of_mem p h)
    · simp only [if_neg hlt, List.mem_cons] at h
      rcases h with h | h
      · exact Or.inr (by simp [h])
      · rcases ih h with h2 | h2
        · exact Or.inl h2
        · exact Or.inr (List.mem_cons_of_mem p h2)

theorem lookup_eq_none_of_forall {k : Key} {db : Db}
    (h : ∀ q ∈ db, q.1 ≠ k) : dbLookup k db = none := by
  induction db with
  | nil => rfl
  | cons p rest ih =>
    unfold dbLookup
    rw [if_neg (h p (List.mem_cons_self p rest))]
    exact ih (fun q hq => h q (List.mem_cons_of_mem p hq))

theorem lookup_some_mem {k : Key} {v : Row} {db : Db}
    (h : dbLookup k db = some v) : (k, v) ∈ db := by
  induction db with
  | nil => simp [dbLookup] at h
  | cons p rest ih =>
    unfold dbLookup at h
    by_cases hpk : p.1 = k
    · rw [if_pos hpk] at h
      have hv : p.2 = v := Option.some.inj h
      rw [show (k, v) = p from (Prod.ext hpk hv).symm]
      exact List.mem_cons_self p rest
    · rw [if_neg hpk] at h
      exact List.mem_cons_of_mem p (ih h)

theorem lookup_none_not_mem {k : Key} {db : Db}
    (h : dbLookup k db = none) : ∀ q ∈ db, q.1 ≠ k := by
  induction db with
  | nil => simp
  | cons p rest ih =>
    unfold dbLookup at h
    by_cases hpk : p.1 = k
    · rw [if_pos hpk] at h; cases h
    · rw [if_neg hpk] at h
      intro q hq
      rcases List.mem_cons.mp hq with hq | hq
      · rw [hq]; exact hpk
      · exact ih h q hq

theorem dbSorted_insert {k : Key} {v : Row} {db : Db}
    (hs : dbSorted db) (hnone : dbLookup k db = none) :
    dbSorted (dbInsert k v db) := by
  induction db with
  | nil => simp [dbInsert, dbSorted]
  | cons p rest ih =>
    unfold dbLookup at hnone
    by_cases hpk : p.1 = k
    · rw [if_pos hpk] at hnone; cases hnone
    rw [if_neg hpk] at hnone
    rcases List.pairwise_cons.mp hs with ⟨hrel, htail⟩
    unfold dbInsert
    by_cases hlt : keyLt k p.1
    · rw [if_pos hlt]
      refine List.pairwise_cons.mpr ⟨?_, hs⟩
      intro q hq
      rcases List.mem_cons.mp hq with hq | hq
      · rw [hq]; exact hlt
      · exact keyLt_trans hlt (hrel q hq)
    · rw [if_neg hlt]
      refine List.pairwise_cons.mpr ⟨?_, ih htail hnone⟩
      intro q hq
      rcases mem_dbInsert hq with hq | hq
      · rw [hq]
        rcases keyLt_total (fun h => hpk h.symm) with h | h
        · exact absurd h hlt
        · exact h
      · exact hrel q hq

theorem mem_dbSet {q : Key × Row} {k : Key} {v : Row} {db : Db}
    (h : q ∈ dbSet k v db) : q ∈ db ∨ (q = (k, v) ∧ ∃ w, (k, w) ∈ db) := by
  induction db with
  | nil => simp [dbSet] at h
  | cons p rest ih =>
    unfold dbSet at h
    by_cases hpk : p.1 = k
    · rw [if_pos hpk] at h
      rcases List.mem_cons.mp h with h | h
      · right
        refine ⟨h, p.2, ?_⟩
        have hp : p = (k, p.2) := Prod.ext hpk rfl
        rw [← hp]
        exact List.mem_cons_self p rest
      · exact Or.inl (List.mem_cons_of_mem p h)
    · rw [if_neg hpk] at h
      rcases List.mem_cons.mp h with h | h
      · exact Or.inl (by simp [h])
      · rcases ih h with h2 | ⟨h2, w, hw⟩
        · exact Or.inl (List.mem_cons_of_mem p h2)
        · exact Or.inr ⟨h2, w, List.mem_cons_of_mem p hw⟩

theorem dbSorted_set {k : Key} {v : Row} {db : Db}
    (hs : dbSorted db) : dbSorted (dbSet k v db) := by
  induction db with
  | nil => simp [dbSet, dbSorted]
  | cons p rest ih =>
    rcases List.pairwise_cons.mp hs with ⟨hrel, htail⟩
    unfold dbSet
    by_cases hpk : p.1 = k
    · rw [if_pos hpk]
      refine List.pairwise_cons.mpr ⟨?_, htail⟩
      intro q hq
      have := hrel q hq
      rwa [hpk] at this
    · rw [if_neg hpk]
      refine List.pairwise_cons.mpr ⟨?_, ih htail⟩
      intro q hq
      rcases mem_dbSet hq with hq | ⟨hq, w, hw⟩
      · exact hrel q hq
      · rw [hq]
        have := hrel (k, w) hw
        exact this

theorem lookup_erase_self {k : Key} {db : Db}
    (hs : dbSorted db) : dbLookup k (dbErase k db) = none := by
  induction db with
  | nil => rfl
  | cons p rest ih =>
    rcases List.pairwise_cons.mp hs with ⟨hrel, htail⟩
    unfold dbErase
    by_cases hpk : p.1 = k
    · rw [if_pos hpk]
      refine lookup_eq_none_of_forall (fun q hq => ?_)
      have := keyLt_ne (hrel q hq)
      rw [hpk] at this
      exact fun h => this h.symm
    · rw [if_neg hpk]
      unfold dbLookup
      rw [if_neg hpk]
      exact ih htail

theorem insert_erase_of_lookup {k : Key} {v : Row} {db : Db}
    (hs : dbSorted db) (h : dbLookup k db = some v) :
    dbInsert k v (dbErase k db) = db := by
  induction db with
  | nil => simp [dbLookup] at h
  | cons p rest ih =>
    rcases List.pairwise_cons.mp hs with ⟨hrel, htail⟩
    unfold dbLookup at h
    by_cases hpk : p.1 = k
    · rw [if_pos hpk] at h
      have hv : p.2 = v := Option.some.inj h
      unfold dbErase
      rw [if_pos hpk]
      have hp : p = (k, v) := by
        rw [show p = (p.1, p.2) from rfl, hpk, hv]
      cases rest with
      | nil => simp [dbInsert, hp]
      | cons q rest2 =>
        have hq : keyLt k q.1 := by
          have := hrel q (List.mem_cons_self q rest2)
          rwa [hpk] at this
        unfold dbInsert
        rw [if_pos hq, hp]
    · rw [if_neg hpk] at h
      unfold dbErase
      rw [if_neg hpk]
      have hmem : (k, v) ∈ rest := lookup_some_mem h
      have hplt : keyLt p.1 k := hrel (k, v) hmem
      unfold dbInsert
      rw [if_neg (keyLt_asymm hplt), ih htail h]

theorem erase_insert_of_none {k : Key} {v : Row} {db : Db}
    (h : dbLookup k db = none) : dbErase k (dbInsert k v db) = db := by
  induction db with
  | nil => simp [dbInsert, dbErase]
  | cons p rest ih =>
    unfold dbLookup at h
    by_cases hpk : p.1 = k
    · rw [if_pos hpk] at h; cases h
    rw [if_neg hpk] at h
    unfold dbInsert
    by_cases hlt : keyLt k p.1
    · rw [if_pos hlt]
      unfold dbErase
      rw [if_pos rfl]
    · rw [if_neg hlt]
      unfold dbErase
      rw [if_neg hpk, ih h]

theorem lookup_insert_self {k : Key} {v : Row} {db : Db}
    (h : dbLookup k db = none) : dbLookup k (dbInsert k v db) = some v := by
  induction db with
  | nil => simp [dbInsert, dbLookup]
  | cons p rest ih =>
    unfold dbLookup at h
    by_cases hpk : p.1 = k
    · rw [if_pos hpk] at h; cases h
    rw [if_neg hpk] at h
    unfold dbInsert
    by_cases hlt : keyLt k p.1
    · rw [if_pos hlt]
      unfold dbLookup
      rw [if_pos rfl]
    · rw [if_neg hlt]
      unfold dbLookup
      rw [if_neg hpk]
      exact ih h

theorem set_set_of_lookup {k : Key} {v w : Row} {db : Db}
    (h : dbLookup k db = some w) : dbSet k w (dbSet k v db) = db := by
  induction db with
  | nil => simp [dbLookup] at h
  | cons p rest ih =>
    obtain ⟨p1, p2⟩ := p
    by_cases hpk : p1 = k
    · subst hpk
      simp only [dbLookup, if_pos] at h
      have hw : p2 = w := Option.some.inj h
      simp [dbSet, hw]
    · simp only [dbLookup, if_neg hpk] at h
      simp [dbSet, hpk, ih h]

theorem lookup_set_self {k : Key} {v w : Row} {db : Db}
    (h : dbLookup k db = some w) : dbLookup k (dbSet k v db) = some v := by
  induction db with
  | nil => simp [dbLookup] at h
  | cons p rest ih =>
    unfold dbLookup at h
    by_cases hpk : p.1 = k
    · unfold dbSet
      rw [if_pos hpk]
      unfold dbLookup
      rw [if_pos rfl]
    · rw [if_neg hpk] at h
      unfold dbSet
      rw [if_neg hpk]
      unfold dbLookup
      rw [if_neg hpk]
      exact ih h

end DbLemmas

section ReplayLemmas

/-- A statement that fired no trigger changed nothing. -/
theorem applyLogged_none_eq {s : Stmt} {db db1 : Db}
    (h : applyLogged s db = some (db1, none)) : db1 = db := by
  cases s with
  | del k =>
    simp only [applyLogged] at h
    cases hl : dbLookup k db with
    | none =>
      rw [hl] at h
      simp only [Option.some.injEq, Prod.mk.injEq] at h
      exact h.1.symm
    | some v =>
      rw [hl] at h
      simp at h
  | ins k v =>
    simp only [applyLogged] at h
    cases hl : dbLookup k db with
    | none =>
      rw [hl] at h
      simp at h
    | some w =>
      rw [hl] at h
      simp at h
  | upd k v =>
    simp only [applyLogged] at h
    cases hl : dbLookup k db with
    | none =>
      rw [hl] at h
      simp only [Option.some.injEq, Prod.mk.injEq] at h
      exact h.1.symm
    | some w =>
      rw [hl] at h
      simp at h

/-- Executing a statement preserves the table-store representation
invariant. -/
theorem applyLogged_sorted {s : Stmt} {db db1 : Db} {oc : Option Stmt}
    (hs : dbSorted db) (h : applyLogged s db = some (db1, oc)) :
    dbSorted db1 := by
  cases s with
  | del k =>
    simp only [applyLogged] at h
    cases hl : dbLookup k db with
    | none =>
      rw [hl] at h
      simp only [Option.some.injEq, Prod.mk.injEq] at h
      rw [← h.1]
      exact hs
    | some v =>
      rw [hl] at h
      simp only [Option.some.injEq, Prod.mk.injEq] at h
      rw [← h.1]
      exact dbSorted_erase k hs
  | ins k v =>
    simp only [applyLogged] at h
    cases hl : dbLookup k db with
    | none =>
      rw [hl] at h
      simp only [Option.some.injEq, Prod.mk.injEq] at h
      rw [← h.1]
      exact dbSorted_insert hs hl
    | some w =>
      rw [hl] at h
      simp at h
  | upd k v =>
    simp only [applyLogged] at h
    cases hl : dbLookup k db with
    | none =>
      rw [hl] at h
      simp only [Option.some.injEq, Prod.mk.injEq] at h
      rw [← h.1]
      exact hs
    | some w =>
      rw [hl] at h
      simp only [Option.some.injEq, Prod.mk.injEq] at h
      rw [← h.1]
      exact dbSorted_set hs

/-- The compensating statement the trigger recorded undoes the executed
statement exactly, and its own compensating statement is the original:
compensating the compensation equals the original. -/
theorem applyLogged_comp {s c : Stmt} {db db1 : Db}
    (hs : dbSorted db) (h : applyLogged s db = some (db1, some c)) :
    applyLogged c db1 = some (db, some s) := by
  cases s with
  | del k =>
    simp only [applyLogged] at h
    cases hl : dbLookup k db with
    | none =>
      rw [hl] at h
      simp at h
    | some v =>
      rw [hl] at h
      simp only [Option.some.injEq, Prod.mk.injEq] at h
      rw [← h.1, ← h.2]
      simp only [applyLogged, lookup_erase_self hs]
      rw [insert_erase_of_lookup hs hl]
  | ins k v =>
    simp only [applyLogged] at h
    cases hl : dbLookup k db with
    | some w =>
      rw [hl] at h
      simp at h
    | none =>
      rw [hl] at h
      simp only [Option.some.injEq, Prod.mk.injEq] at h
      rw [← h.1, ← h.2]
      simp only [applyLogged, lookup_insert_self hl]
      rw [erase_insert_of_none hl]
  | upd k v =>
    simp only [applyLogged] at h
    cases hl : dbLookup k db with
    | none =>
      rw [hl] at h
      simp at h
    | some w =>
      rw [hl] at h
      simp only [Option.some.injEq, Prod.mk.injEq] at h
      rw [← h.1, ← h.2]
      simp only [applyLogged, lookup_set_self hl]
      rw [set_set_of_lookup hl]

theorem replay_append {l1 l2 : List Stmt} :
    ∀ {db db1 db2 : Db} {cs1 cs2 : List Stmt},
      replay l1 db = some (db1, cs1) → replay l2 db1 = some (db2, cs2) →
      replay (l1 ++ l2) db = some (db2, cs1 ++ cs2) := by
  induction l1 with
  | nil =>
    intro db db1 db2 cs1 cs2 h1 h2
    simp only [replay, Option.some.injEq, Prod.mk.injEq] at h1
    rw [List.nil_append, ← h1.2, List.nil_append]
    rw [← h1.1] at h2
    exact h2
  | cons s t ih =>
    intro db db1 db2 cs1 cs2 h1 h2
    rw [List.cons_append]
    simp only [replay] at h1 ⊢
    cases ha : applyLogged s db with
    | none => simp [ha] at h1
    | some p =>
      obtain ⟨dbm, oc⟩ := p
      simp only [ha] at h1 ⊢
      cases hr : replay t dbm with
      | none => simp [hr] at h1
      | some q =>
        obtain ⟨dbq, csq⟩ := q
        simp only [hr, Option.some.injEq, Prod.mk.injEq] at h1
        obtain ⟨hdb, hcs⟩ := h1
        rw [hdb] at hr
        have ihr := ih hr h2
        simp only [ihr]
        rw [← hcs, List.append_assoc]

theorem replay_sorted {l : List Stmt} :
    ∀ {db db1 : Db} {cs : List Stmt},
      dbSorted db → replay l db = some (db1, cs) → dbSorted db1 := by
  induction l with
  | nil =>
    intro db db1 cs hs h
    simp only [replay, Option.some.injEq, Prod.mk.injEq] at h
    rw [← h.1]
    exact hs
  | cons s t ih =>
    intro db db1 cs hs h
    simp only [replay] at h
    cases ha : applyLogged s db with
    | none => simp [ha] at h
    | some p =>
      obtain ⟨dbm, oc⟩ := p
      simp only [ha] at h
      cases hr : replay t dbm with
      | none => simp [hr] at h
      | some q =>
        obtain ⟨dbq, csq⟩ := q
        simp only [hr, Option.some.injEq, Prod.mk.injEq] at h
        rw [← h.1]
        exact ih (applyLogged_sorted hs ha) hr

/-- Replaying, in reverse order, the compensating statements a replay
recorded restores the table store the replay started from: the heart of
undo followed by redo. -/
theorem replay_rev {l : List Stmt} :
    ∀ {db db1 : Db} {cs : List Stmt},
      dbSorted db → replay l db = some (db1, cs) →
      ∃ cs2, replay cs.reverse db1 = some (db, cs2) := by
  induction l with
  | nil =>
    intro db db1 cs hs h
    simp only [replay, Option.some.injEq, Prod.mk.injEq] at h
    rw [← h.1, ← h.2]
    exact ⟨[], rfl⟩
  | cons s t ih =>
    intro db db1 cs hs h
    simp only [replay] at h
    cases ha : applyLogged s db with
    | none => simp [ha] at h
    | some p =>
      obtain ⟨dbm, oc⟩ := p
      simp only [ha] at h
      cases hr : replay t dbm with
      | none => simp [hr] at h
      | some q =>
        obtain ⟨dbq, csq⟩ := q
        simp only [hr, Option.some.injEq, Prod.mk.injEq] at h
        obtain ⟨hdb, hcs⟩ := h
        have hsm : dbSorted dbm := applyLogged_sorted hs ha
        rcases ih hsm hr with ⟨cs2, hcs2⟩
        rw [hdb] at hcs2
        rw [← hcs, List.reverse_append]
        cases oc with
        | none =>
          have hpd : dbm = db := applyLogged_none_eq ha
          have h2 : replay ((none : Option Stmt).toList.reverse) dbm = some (dbm, []) := rfl
          have h3 := replay_append hcs2 h2
          rw [hpd] at h3
          exact ⟨cs2 ++ [], h3⟩
        | some c =>
          have hcomp : applyLogged c dbm = some (db, some s) := applyLogged_comp hs ha
          have h2 : replay ((some c).toList.reverse) dbm = some (db, [s]) := by
            simp only [Option.toList, List.reverse_singleton, replay, hcomp]
            rfl
          exact ⟨cs2 ++ [s], replay_append hcs2 h2⟩

end ReplayLemmas

section LogLemmas

theorem maxSeq_nonneg (log : List (Int × Stmt)) : 0 ≤ maxSeq log := by
  induction log with
  | nil => simp [maxSeq]
  | cons p t ih =>
    show 0 ≤ max p.1 (maxSeq t)
    exact le_trans ih (le_max_right _ _)

theorem le_maxSeq_of_mem {p : Int × Stmt} {log : List (Int × Stmt)}
    (h : p ∈ log) : p.1 ≤ maxSeq log := by
  induction log with
  | nil => cases h
  | cons q t ih =>
    show p.1 ≤ max q.1 (maxSeq t)
    rcases List.mem_cons.mp h with h | h
    · rw [h]; exact le_max_left _ _
    · exact le_trans (ih h) (le_max_right _ _)

theorem maxSeq_append (l1 l2 : List (Int × Stmt)) :
    maxSeq (l1 ++ l2) = max (maxSeq l1) (maxSeq l2) := by
  induction l1 with
  | nil =>
    show maxSeq l2 = max 0 (maxSeq l2)
    rw [max_eq_right (maxSeq_nonneg l2)]
  | cons p t ih =>
    show max p.1 (maxSeq (t ++ l2)) = max (max p.1 (maxSeq t)) (maxSeq l2)
    rw [ih, max_assoc]

theorem maxSeq_singleton (s : Int) (c : Stmt) (h : 0 ≤ s) :
    maxSeq [(s, c)] = s := by
  show max s 0 = s
  exact max_eq_left h

/-- appendComps assigns the consecutive sequence numbers
maxSeq log + 1, maxSeq log + 2, ... to the appended statements. -/
theorem appendComps_eq (cs : List Stmt) :
    ∀ log, appendComps log cs = log ++ tagFrom (maxSeq log) cs := by
  induction cs with
  | nil => intro log; simp [appendComps, tagFrom]
  | cons c cs ih =>
    intro log
    show appendComps (log ++ [(maxSeq log + 1, c)]) cs = _
    rw [ih]
    have hm : maxSeq (log ++ [(maxSeq log + 1, c)]) = maxSeq log + 1 := by
      rw [maxSeq_append, maxSeq_singleton _ _ (by linarith [maxSeq_nonneg log])]
      exact max_eq_right (by linarith)
    rw [hm, List.append_assoc]
    rfl

theorem mem_tagFrom_lt {p : Int × Stmt} {cs : List Stmt} :
    ∀ {m : Int}, p ∈ tagFrom m cs → m < p.1 := by
  induction cs with
  | nil => intro m h; cases h
  | cons c cs ih =>
    intro m h
    rcases List.mem_cons.mp h with h | h
    · rw [h]; simp
    · have := ih h; linarith

theorem tagFrom_map_snd (cs : List Stmt) :
    ∀ m, (tagFrom m cs).map (fun p => p.2) = cs := by
  induction cs with
  | nil => intro m; rfl
  | cons c cs ih => intro m; simp [tagFrom, ih]

/-- Fetching the interval that starts right above the surviving rows
returns exactly the appended compensating statements, most recent first. -/
theorem fetch_appended {log : List (Int × Stmt)} {m : Int} (cs : List Stmt)
    (hm : ∀ p ∈ log, p.1 ≤ m) :
    fetchDesc (m + 1) (maxSeq (log ++ tagFrom m cs)) (log ++ tagFrom m cs) =
      cs.reverse := by
  unfold fetchDesc
  rw [List.filter_append]
  have h1 : log.filter
      (fun p => inRange (m + 1) (maxSeq (log ++ tagFrom m cs)) p.1) = [] := by
    rw [List.filter_eq_nil_iff]
    intro p hp
    have := hm p hp
    simp only [inRange, Bool.and_eq_true, decide_eq_true_eq, not_and]
    intro h
    omega
  have h2 : (tagFrom m cs).filter
      (fun p => inRange (m + 1) (maxSeq (log ++ tagFrom m cs)) p.1) =
      tagFrom m cs := by
    rw [List.filter_eq_self]
    intro p hp
    have hlt := mem_tagFrom_lt hp
    have hle := le_maxSeq_of_mem (List.mem_append_right log hp)
    simp only [inRange, Bool.and_eq_true, decide_eq_true_eq]
    omega
  rw [h1, h2, List.nil_append, List.map_reverse, tagFrom_map_snd]

/-- Caller mutations only ever append rows whose seq exceeds every
pre-existing seq, and they never touch the freeze sentinel or the stacks. -/
theorem applyMuts_log {ms : List Stmt} :
    ∀ {st0 st1 : EngineState}, applyMuts ms st0 = some st1 →
      st1.freeze = st0.freeze ∧
      ∃ extra, st1.log = st0.log ++ extra ∧ ∀ p ∈ extra, maxSeq st0.log < p.1 := by
  induction ms with
  | nil =>
    intro st0 st1 h
    simp only [applyMuts, Option.some.injEq] at h
    rw [← h]
    exact ⟨rfl, [], by simp, by simp⟩
  | cons s ms ih =>
    intro st0 st1 h
    simp only [applyMuts] at h
    cases hm : userMutation s st0 with
    | none => rw [hm] at h; cases h
    | some stm =>
      rw [hm] at h
      rcases ih h with ⟨hfr, extra, hlog, hgt⟩
      simp only [userMutation] at hm
      cases ha : applyLogged s st0.db with
      | none => rw [ha] at hm; cases hm
      | some p =>
        obtain ⟨dbm, oc⟩ := p
        rw [ha] at hm
        have hstm := Option.some.inj hm
        cases oc with
        | none =>
          refine ⟨by rw [hfr, ← hstm], extra, ?_, ?_⟩
          · rw [hlog, ← hstm]
          · intro p hp
            have := hgt p hp
            rw [← hstm] at this
            exact this
        | some c =>
          refine ⟨by rw [hfr, ← hstm], (maxSeq st0.log + 1, c) :: extra, ?_, ?_⟩
          · rw [hlog, ← hstm]
            simp [List.append_assoc]
          · intro p hp
            rcases List.mem_cons.mp hp with hp | hp
            · rw [hp]; simp
            · have := hgt p hp
              rw [← hstm] at this
              simp only at this
              have hle : maxSeq st0.log ≤
                  maxSeq (st0.log ++ [(maxSeq st0.log + 1, c)]) := by
                rw [maxSeq_append]
                exact le_max_left _ _
              linarith

end LogLemmas

section StepLemmas

theorem stepOp_true_nil {st : EngineState} (hu : st.undostack = []) :
    stepOp st true = none := by
  unfold stepOp
  rw [if_pos rfl, hu]

theorem stepOp_false_nil {st : EngineState} (hr : st.redostack = []) :
    stepOp st false = none := by
  unfold stepOp
  rw [if_neg (by simp), hr]

theorem stepOp_true_cons {st : EngineState} {b e : Int} {rest : List (Int × Int)}
    (hu : st.undostack = (b, e) :: rest) :
    stepOp st true =
      match replay (fetchDesc b e st.log) st.db with
      | none => none
      | some (db1, comps) =>
        some { st with
          db := db1,
          log := appendComps (deleteRange b e st.log) comps,
          firstlog := maxSeq (appendComps (deleteRange b e st.log) comps) + 1,
          undostack := rest,
          redostack := (maxSeq (deleteRange b e st.log) + 1,
            maxSeq (appendComps (deleteRange b e st.log) comps)) :: st.redostack } := by
  unfold stepOp
  rw [if_pos rfl, hu]
  rfl

theorem stepOp_false_cons {st : EngineState} {b e : Int} {rest : List (Int × Int)}
    (hr : st.redostack = (b, e) :: rest) :
    stepOp st false =
      match replay (fetchDesc b e st.log) st.db with
      | none => none
      | some (db1, comps) =>
        some { st with
          db := db1,
          log := appendComps (deleteRange b e st.log) comps,
          firstlog := maxSeq (appendComps (deleteRange b e st.log) comps) + 1,
          undostack := (maxSeq (deleteRange b e st.log) + 1,
            maxSeq (appendComps (deleteRange b e st.log) comps)) :: st.undostack,
          redostack := rest } := by
  unfold stepOp
  rw [if_neg (by simp), hr]
  rfl

end StepLemmas

section RoundTrip

/-- C7 (amended): for every state with a sorted table store in which undo()
succeeds, the immediately following redo() also succeeds, restores every
registered table to byte-identical contents (the whole table store returns
to exactly its pre-undo value), returns the redo stack exactly to its
pre-undo value, and returns the undo stack to its pre-undo value except
that the endpoints of the repushed top interval may be renumbered (the
original claim's exact stack equality fails; see the counterexample). -/
theorem undo_redo_core (st st1 : EngineState)
    (hs : dbSorted st.db) (h : stepOp st true = some st1) :
    ∃ st2, stepOp st1 false = some st2 ∧
      st2.db = st.db ∧
      (∀ t, tableRows t st2.db = tableRows t st.db) ∧
      st2.redostack = st.redostack ∧
      ∃ q, st2.undostack = q :: st.undostack.tail := by
  cases hu : st.undostack with
  | nil => rw [stepOp_true_nil hu] at h; cases h
  | cons hd rest =>
    obtain ⟨b, e⟩ := hd
    rw [stepOp_true_cons hu] at h
    cases hr : replay (fetchDesc b e st.log) st.db with
    | none => rw [hr] at h; cases h
    | some pc =>
      obtain ⟨db1, comps⟩ := pc
      rw [hr] at h
      have hst1 := Option.some.inj h
      have hdb1 : st1.db = db1 := by rw [← hst1]
      have hlog : st1.log = appendComps (deleteRange b e st.log) comps := by
        rw [← hst1]
      have hredo : st1.redostack =
          (maxSeq (deleteRange b e st.log) + 1,
            maxSeq (appendComps (deleteRange b e st.log) comps)) ::
            st.redostack := by
        rw [← hst1]
      have hundo : st1.undostack = rest := by rw [← hst1]
      have hstep2 := stepOp_false_cons hredo
      have hfetch : fetchDesc (maxSeq (deleteRange b e st.log) + 1)
          (maxSeq (appendComps (deleteRange b e st.log) comps)) st1.log =
          comps.reverse := by
        rw [hlog, appendComps_eq comps (deleteRange b e st.log)]
        exact fetch_appended comps (fun p hp => le_maxSeq_of_mem hp)
      rcases replay_rev hs hr with ⟨cs2, hrev⟩
      rw [← hdb1] at hrev
      rw [hfetch, hrev] at hstep2
      refine ⟨_, hstep2, rfl, fun t => rfl, rfl, ?_⟩
      exact ⟨_, congrArg (List.cons _) hundo⟩

end RoundTrip

section BarrierLemmas

theorem barrier_inactive {st : EngineState} (h : st.active = false) :
    barrier st = { st with pending := [] } := by
  unfold barrier
  rw [h]
  rfl

theorem barrier_active {st : EngineState} (ha : st.active = true) :
    barrier st =
      if st.firstlog = maxSeq st.log + 1 then
        { st with pending := [], firstlog := maxSeq st.log + 1 }
      else
        { st with
          pending := [], firstlog := maxSeq st.log + 1,
          undostack := (st.firstlog,
            match st.freeze with
            | some k => if 0 ≤ k ∧ k < maxSeq st.log then k else maxSeq st.log
            | none => maxSeq st.log) :: st.undostack,
          redostack := [] } := by
  unfold barrier
  rw [ha]
  rfl

/-- The end value a barrier records is never above max(seq). -/
theorem barrierEnd_le {st : EngineState} :
    (match st.freeze with
     | some k => if 0 ≤ k ∧ k < maxSeq st.log then k else maxSeq st.log
     | none => maxSeq st.log) ≤ maxSeq st.log := by
  cases st.freeze with
  | none => exact le_refl _
  | some k =>
    show (if 0 ≤ k ∧ k < maxSeq st.log then k else maxSeq st.log) ≤ maxSeq st.log
    by_cases h : 0 ≤ k ∧ k < maxSeq st.log
    · rw [if_pos h]; exact le_of_lt h.2
    · rw [if_neg h]

end BarrierLemmas

section FreezeLemmas

theorem freezeOp_unfrozen {st : EngineState} {k : Int}
    (hf : st.freeze = some k) (hk : k < 0) :
    freezeOp st = { st with freeze := some (maxSeq st.log) } := by
  unfold freezeOp
  rw [hf]
  show (if 0 ≤ k then st else { st with freeze := some (maxSeq st.log) }) = _
  rw [if_neg (by omega)]

theorem freezeOp_frozen {st : EngineState} {k : Int}
    (hf : st.freeze = some k) (hk : 0 ≤ k) : freezeOp st = st := by
  unfold freezeOp
  rw [hf]
  show (if 0 ≤ k then st else { st with freeze := some (maxSeq st.log) }) = st
  rw [if_pos hk]

theorem unfreezeOp_frozen {st : EngineState} {k : Int}
    (hf : st.freeze = some k) (hk : 0 ≤ k) :
    unfreezeOp st =
      { st with
        log := st.log.filter (fun p => !(decide (k < p.1))),
        freeze := some (-1) } := by
  unfold unfreezeOp
  rw [hf]
  show (if k < 0 then st
    else { st with
      log := st.log.filter (fun p => !(decide (k < p.1))),
      freeze := some (-1) }) = _
  rw [if_neg (by omega)]

theorem unfreezeOp_unfrozen {st : EngineState} {k : Int}
    (hf : st.freeze = some k) (hk : k < 0) : unfreezeOp st = st := by
  unfold unfreezeOp
  rw [hf]
  show (if k < 0 then st
    else { st with
      log := st.log.filter (fun p => !(decide (k < p.1))),
      freeze := some (-1) }) = st
  rw [if_pos hk]

end FreezeLemmas

section Claims

/-- C1 counterexample: on the freshly activated engine the undo stack is
empty, yet undo() does not return successfully: the source stack is popped
with an unchecked .pop().unwrap() in _step, a panic (none in the model) —
not the no-op return the claim states. -/
theorem c1_counterexample :
    stActive.undostack = [] ∧ stActive.active = true ∧
      stepOp stActive true = none ∧ stepOp stActive true ≠ some stActive := by
  refine ⟨rfl, rfl, ?_, ?_⟩ <;> decide

/-- C1 (amended): undo() with an empty undo stack, and redo() with an empty
redo stack, do not return at all: _step pops the source stack with
.pop().unwrap(), which panics on the empty vector (modelled as none); the
engine state is not updated, but the call is a panic rather than a
successful no-op. -/
theorem c1_amended_empty_stack_panics (st : EngineState) :
    (st.undostack = [] → stepOp st true = none) ∧
    (st.redostack = [] → stepOp st false = none) :=
  ⟨fun h => stepOp_true_nil h, fun h => stepOp_false_nil h⟩

theorem c1_amended_witness :
    stepOp stActive true = none ∧ stepOp stActive false = none :=
  ⟨(c1_amended_empty_stack_panics stActive).1 rfl,
   (c1_amended_empty_stack_panics stActive).2 rfl⟩

/-- C2 counterexample: in the state reached by activate; INSERT 23;
barrier(); undo() (the state of test_undo_insert) the redo stack holds
(1,1) and no rows were logged since the interval opened; calling barrier()
returns through the early no-rows exit and leaves the redo stack
non-empty, contradicting the claim. -/
theorem c2_counterexample :
    ((mIns 1 23 stActive).map barrier).bind (fun s => stepOp s true) =
      some stUndo1 ∧
    stUndo1.active = true ∧
    (barrier stUndo1).redostack = [(1, 1)] := by
  refine ⟨?_, rfl, ?_⟩ <;> decide

/-- C2 (amended): immediately after barrier() the redo stack is empty
whenever at least one log row was produced since the interval was opened
(firstlog differs from the recomputed max(seq)+1); when no row was
produced, barrier() returns early and leaves both stacks — including a
non-empty redo stack, e.g. right after an undo() — untouched. -/
theorem c2_amended_barrier_redostack (st : EngineState) (ha : st.active = true) :
    (st.firstlog ≠ maxSeq st.log + 1 → (barrier st).redostack = []) ∧
    (st.firstlog = maxSeq st.log + 1 →
      (barrier st).undostack = st.undostack ∧
      (barrier st).redostack = st.redostack) := by
  rw [barrier_active ha]
  constructor
  · intro h
    rw [if_neg h]
  · intro h
    rw [if_pos h]
    exact ⟨rfl, rfl⟩

theorem c2_amended_witness :
    (barrier stMut1).redostack = [] ∧
    (barrier stUndo1).undostack = stUndo1.undostack ∧
    (barrier stUndo1).redostack = stUndo1.redostack :=
  ⟨(c2_amended_barrier_redostack stMut1 rfl).1 (by decide),
   ((c2_amended_barrier_redostack stUndo1 rfl).2 (by decide)).1,
   ((c2_amended_barrier_redostack stUndo1 rfl).2 (by decide)).2⟩

/-- C3 counterexample: three reachable refutations in one.  (i) Scenario S5
(activate; INSERT 23; barrier; freeze; INSERT 42; barrier —
test_barrier_while_frozen) reaches a state whose undo stack holds (2,1)
with begin 2 > end 1.  (ii) Continuing activate; INSERT; barrier; INSERT;
barrier; undo; freeze; INSERT; redo; unfreeze reaches stPost — not frozen,
firstlog 5, max(seq) 1 — and the next, unfrozen, barrier() pushes (5,1)
with begin 5 > end 1, so b ≤ e also fails without freezing.  (iii) In the
resulting state the interval (4,4) is still on the undo stack while
firstlog is 2, so firstlog > e is not a reachable-state invariant
either. -/
theorem c3_counterexample :
    (((((mIns 1 23 stActive).map barrier).map freezeOp).bind
        (mIns 2 42)).map barrier = some stS5 ∧
      stS5.active = true ∧
      ((2 : Int), (1 : Int)) ∈ stS5.undostack ∧
      ¬ ((2 : Int) ≤ (1 : Int))) ∧
    (((((((((mIns 1 23 stActive).map barrier).bind (mIns 2 42)).map
          barrier).bind (fun s => stepOp s true)).map freezeOp).bind
          (mIns 3 69)).bind (fun s => stepOp s false)).map unfreezeOp =
        some stPost ∧
      stPost.freeze = some (-1) ∧
      barrier stPost = stBad ∧
      stBad.active = true ∧
      ((5 : Int), (1 : Int)) ∈ stBad.undostack ∧
      ¬ ((5 : Int) ≤ (1 : Int))) ∧
    (((4 : Int), (4 : Int)) ∈ stBad.undostack ∧
      stBad.firstlog = 2 ∧
      ¬ (stBad.firstlog > (4 : Int))) := by
  refine ⟨⟨?_, rfl, ?_, ?_⟩, ⟨?_, rfl, ?_, rfl, ?_, ?_⟩, ⟨?_, rfl, ?_⟩⟩ <;>
    decide

/-- C3 (amended): neither claimed bound is an invariant of reachable
states — a frozen barrier pushes intervals with b > e (scenario S5), an
unfrozen barrier after an unfreeze() that discarded log rows while
firstlog stayed stale pushes b > e as well, and after such an unfreeze a
stack interval can even have firstlog ≤ e.  What does hold, for every
state: whenever barrier() pushes an interval, the pushed interval
satisfies e ≤ max(seq) < firstlog immediately afterwards, and whenever
_step (undo or redo) pushes its mirror interval, firstlog = e + 1
immediately afterwards. -/
theorem c3_amended_pushed_interval_bounds (st stu str2 : EngineState) :
    (st.active = true → st.firstlog ≠ maxSeq st.log + 1 →
      ∃ b e, (barrier st).undostack = (b, e) :: st.undostack ∧
        e ≤ maxSeq st.log ∧ e < (barrier st).firstlog) ∧
    (stepOp st true = some stu →
      ∃ b e, stu.redostack = (b, e) :: st.redostack ∧ stu.firstlog = e + 1) ∧
    (stepOp st false = some str2 →
      ∃ b e, str2.undostack = (b, e) :: st.undostack ∧
        str2.firstlog = e + 1) := by
  refine ⟨?_, ?_, ?_⟩
  · intro ha hpush
    rw [barrier_active ha, if_neg hpush]
    refine ⟨st.firstlog, _, rfl, @barrierEnd_le st, ?_⟩
    exact lt_of_le_of_lt (@barrierEnd_le st) (lt_add_one _)
  · intro h
    cases hu : st.undostack with
    | nil => rw [stepOp_true_nil hu] at h; cases h
    | cons hd rest =>
      obtain ⟨b, e⟩ := hd
      rw [stepOp_true_cons hu] at h
      cases hr : replay (fetchDesc b e st.log) st.db with
      | none => rw [hr] at h; cases h
      | some pc =>
        obtain ⟨db1, comps⟩ := pc
        rw [hr] at h
        have hst1 := Option.some.inj h
        refine ⟨maxSeq (deleteRange b e st.log) + 1,
          maxSeq (appendComps (deleteRange b e st.log) comps), ?_, ?_⟩
        · rw [← hst1]
        · rw [← hst1]
  · intro h
    cases hu : st.redostack with
    | nil => rw [stepOp_false_nil hu] at h; cases h
    | cons hd rest =>
      obtain ⟨b, e⟩ := hd
      rw [stepOp_false_cons hu] at h
      cases hr : replay (fetchDesc b e st.log) st.db with
      | none => rw [hr] at h; cases h
      | some pc =>
        obtain ⟨db1, comps⟩ := pc
        rw [hr] at h
        have hst1 := Option.some.inj h
        refine ⟨maxSeq (deleteRange b e st.log) + 1,
          maxSeq (appendComps (deleteRange b e st.log) comps), ?_, ?_⟩
        · rw [← hst1]
        · rw [← hst1]

theorem c3_amended_witness :
    (∃ b e, (barrier stFrozen).undostack = (b, e) :: stFrozen.undostack ∧
      e ≤ maxSeq stFrozen.log ∧ e < (barrier stFrozen).firstlog) ∧
    (∃ b e, stUndo1.redostack = (b, e) :: stBar1.redostack ∧
      stUndo1.firstlog = e + 1) ∧
    (∃ b e, stBar1.undostack = (b, e) :: stUndo1.undostack ∧
      stBar1.firstlog = e + 1) :=
  ⟨(c3_amended_pushed_interval_bounds stFrozen stFrozen stFrozen).1 rfl (by decide),
   (c3_amended_pushed_interval_bounds stBar1 stUndo1 stBar1).2.1 (by decide),
   (c3_amended_pushed_interval_bounds stUndo1 stBar1 stBar1).2.2 (by decide)⟩

/-- C4: barrier() while frozen (freeze = k ≥ 0) with max(seq) > k clamps
the pushed end to k: whenever rows were logged since the interval opened
(so barrier pushes at all), the pushed interval is (firstlog_pre, k), even
when k < firstlog_pre makes it empty — as in scenario S5. -/
theorem c4_frozen_barrier_clamps (st : EngineState) (k : Int)
    (ha : st.active = true) (hf : st.freeze = some k) (hk : 0 ≤ k)
    (hgt : k < maxSeq st.log) (hpush : st.firstlog ≠ maxSeq st.log + 1) :
    (barrier st).undostack = (st.firstlog, k) :: st.undostack := by
  rw [barrier_active ha, if_neg hpush]
  have he : (match st.freeze with
      | some k2 => if 0 ≤ k2 ∧ k2 < maxSeq st.log then k2 else maxSeq st.log
      | none => maxSeq st.log) = k := by
    rw [hf]
    show (if 0 ≤ k ∧ k < maxSeq st.log then k else maxSeq st.log) = k
    exact if_pos ⟨hk, hgt⟩
  exact congrArg (fun x => (st.firstlog, x) :: st.undostack) he

theorem c4_witness :
    (barrier stFrozen).undostack =
      (stFrozen.firstlog, 1) :: stFrozen.undostack ∧
    stFrozen.firstlog = 2 ∧ (1 : Int) < stFrozen.firstlog :=
  ⟨c4_frozen_barrier_clamps stFrozen 1 rfl rfl (by decide) (by decide) (by decide),
   rfl, by decide⟩

/-- C5: when the recomputed firstlog equals the pre-barrier begin (no rows
were logged since the interval opened), barrier() touches neither stack;
and barrier is idempotent on every state: a second barrier() with no
intervening mutation changes nothing at all. -/
theorem c5_barrier_idempotent (st : EngineState) :
    (st.active = true → maxSeq st.log + 1 = st.firstlog →
      (barrier st).undostack = st.undostack ∧
      (barrier st).redostack = st.redostack) ∧
    barrier (barrier st) = barrier st := by
  constructor
  · intro ha h
    rw [barrier_active ha, if_pos h.symm]
    exact ⟨rfl, rfl⟩
  · by_cases ha : st.active = true
    · rw [barrier_active ha]
      by_cases h : st.firstlog = maxSeq st.log + 1
      · rw [if_pos h]
        have ha2 : ({ st with
            pending := [],
            firstlog := maxSeq st.log + 1 } : EngineState).active = true := ha
        rw [barrier_active ha2, if_pos rfl]
      · rw [if_neg h]
        have ha2 : ({ st with
            pending := [], firstlog := maxSeq st.log + 1,
            undostack := (st.firstlog,
              (match st.freeze with
              | some k => if 0 ≤ k ∧ k < maxSeq st.log then k else maxSeq st.log
              | none => maxSeq st.log)) :: st.undostack,
            redostack := [] } : EngineState).active = true := ha
        rw [barrier_active ha2, if_pos rfl]
    · have ha2 : st.active = false := by
        cases hb : st.active
        · rfl
        · exact absurd hb ha
      have ha3 : ({ st with pending := [] } : EngineState).active = false := ha2
      rw [barrier_inactive ha2, barrier_inactive ha3]

theorem c5_witness :
    ((barrier stBar1).undostack = stBar1.undostack ∧
     (barrier stBar1).redostack = stBar1.redostack) ∧
    barrier (barrier stBar1) = barrier stBar1 :=
  ⟨(c5_barrier_idempotent stBar1).1 rfl (by decide),
   (c5_barrier_idempotent stBar1).2⟩

/-- C6 counterexample: deactivate() on an active engine also drops the
temporary trigger user_trigger, whose name does not match the factory
naming convention: the name filter of the original Tcl is commented out in
_drop_triggers, so every temporary trigger is dropped, and non-matching
triggers are NOT left intact. -/
theorem c6_counterexample :
    matchesConvention ("user_trigger") = false ∧
    ("user_trigger" : String) ∈ stTrig.tempTriggers ∧
    stTrig.active = true ∧
    ("user_trigger" : String) ∉ (deactivateOp stTrig).tempTriggers := by
  refine ⟨?_, ?_, rfl, ?_⟩ <;> decide

/-- C6 (amended): deactivate() on an active engine drops EVERY temporary
trigger in the connection's temporary schema, whether or not its name
matches the factory convention (the Tcl name filter is commented out in
the Rust _drop_triggers); it also resets both stacks, clears active and
sets the freeze sentinel to -1. -/
theorem c6_amended_deactivate_drops_all (st : EngineState)
    (ha : st.active = true) :
    (deactivateOp st).tempTriggers = [] ∧
    (deactivateOp st).undostack = [] ∧
    (deactivateOp st).redostack = [] ∧
    (deactivateOp st).active = false ∧
    (deactivateOp st).freeze = some (-1) := by
  unfold deactivateOp
  rw [ha]
  exact ⟨rfl, rfl, rfl, rfl, rfl⟩

theorem c6_amended_witness :
    (deactivateOp stTrig).tempTriggers = [] ∧
    (deactivateOp stTrig).undostack = [] ∧
    (deactivateOp stTrig).redostack = [] ∧
    (deactivateOp stTrig).active = false ∧
    (deactivateOp stTrig).freeze = some (-1) :=
  c6_amended_deactivate_drops_all stTrig rfl

/-- C7 counterexample: from the reachable scenario-S5 state, undo()
followed by redo() leaves every table byte-identical, but does not return
the undo stack to its pre-undo value: the popped top interval (2,1) is
repushed as (3,2), so the stacks are not restored as the claim states. -/
theorem c7_counterexample :
    (stepOp stS5 true).bind (fun s => stepOp s false) = some stS5ur ∧
    stS5ur.db = stS5.db ∧
    stS5.undostack = [(2, 1), (1, 1)] ∧
    stS5ur.undostack = [(3, 2), (1, 1)] ∧
    stS5ur.undostack ≠ stS5.undostack := by
  refine ⟨?_, rfl, rfl, rfl, ?_⟩ <;> decide

theorem c7_amended_witness :
    dbSorted stBar1.db ∧ stepOp stBar1 true = some stUndo1 ∧
    (∃ st2, stepOp stUndo1 false = some st2 ∧
      st2.db = stBar1.db ∧
      (∀ t, tableRows t st2.db = tableRows t stBar1.db) ∧
      st2.redostack = stBar1.redostack ∧
      ∃ q, st2.undostack = q :: stBar1.undostack.tail) :=
  ⟨by simp [dbSorted, stBar1], by decide,
   undo_redo_core stBar1 stUndo1 (by simp [dbSorted, stBar1]) (by decide)⟩

/-- C8: unfreeze() while frozen (freeze = k ≥ 0) deletes exactly the
undolog rows with seq > k and resets the sentinel to -1; consequently,
freeze() from an unfrozen state followed by any successful sequence of
mutations to registered tables followed by unfreeze() restores the undolog
to exactly its pre-freeze rows — in particular its row count. -/
theorem c8_unfreeze_discards_frozen_rows (st st1 : EngineState)
    (ms : List Stmt) :
    (∀ st2 : EngineState, ∀ k : Int, st2.freeze = some k → 0 ≤ k →
      (unfreezeOp st2).log = st2.log.filter (fun p => !(decide (k < p.1))) ∧
      (unfreezeOp st2).freeze = some (-1)) ∧
    (st.freeze = some (-1) → applyMuts ms (freezeOp st) = some st1 →
      (unfreezeOp st1).log = st.log ∧
      (unfreezeOp st1).log.length = st.log.length ∧
      (unfreezeOp st1).freeze = some (-1)) := by
  constructor
  · intro st2 k hf hk
    rw [unfreezeOp_frozen hf hk]
    exact ⟨rfl, rfl⟩
  · intro hf hm
    have hfz : freezeOp st = { st with freeze := some (maxSeq st.log) } :=
      freezeOp_unfrozen hf (by omega)
    rw [hfz] at hm
    rcases applyMuts_log hm with ⟨hfr, extra, hlog, hgt⟩
    have hf1 : st1.freeze = some (maxSeq st.log) := hfr
    have hlog1 : st1.log = st.log ++ extra := hlog
    have hgt1 : ∀ p ∈ extra, maxSeq st.log < p.1 := hgt
    have hres := unfreezeOp_frozen hf1 (maxSeq_nonneg st.log)
    have hkeep : st.log.filter
        (fun p => !(decide (maxSeq st.log < p.1))) = st.log := by
      rw [List.filter_eq_self]
      intro p hp
      have := le_maxSeq_of_mem hp
      simp only [Bool.not_eq_true', decide_eq_false_iff_not, not_lt]
      omega
    have hdrop : extra.filter
        (fun p => !(decide (maxSeq st.log < p.1))) = [] := by
      rw [List.filter_eq_nil_iff]
      intro p hp
      have := hgt1 p hp
      simp only [Bool.not_eq_true', decide_eq_false_iff_not, not_lt, not_le]
      omega
    have hlogres : (unfreezeOp st1).log = st.log := by
      rw [hres]
      show st1.log.filter (fun p => !(decide (maxSeq st.log < p.1))) = st.log
      rw [hlog1, List.filter_append, hkeep, hdrop, List.append_nil]
    refine ⟨hlogres, by rw [hlogres], by rw [hres]⟩

theorem c8_witness :
    ((unfreezeOp stFroze3).log =
        stFroze3.log.filter (fun p => !(decide ((1 : Int) < p.1))) ∧
      (unfreezeOp stFroze3).freeze = some (-1)) ∧
    ((unfreezeOp stFroze3).log = stBar1.log ∧
      (unfreezeOp stFroze3).log.length = stBar1.log.length ∧
      (unfreezeOp stFroze3).freeze = some (-1)) :=
  ⟨(c8_unfreeze_discards_frozen_rows stBar1 stFroze3
      [Stmt.ins (0, 2) [42], Stmt.ins (0, 3) [69]]).1 stFroze3 1 rfl (by decide),
   (c8_unfreeze_discards_frozen_rows stBar1 stFroze3
      [Stmt.ins (0, 2) [42], Stmt.ins (0, 3) [69]]).2 rfl (by decide)⟩

/-- C9: misuse of the freeze mechanism is a warned no-op, never an error:
freeze() while already frozen (freeze = k ≥ 0) and unfreeze() while not
frozen (freeze = -1) both return successfully and leave the whole engine
state — sentinel, stacks, firstlog and undolog — unchanged. -/
theorem c9_freeze_misuse_noop (st : EngineState) (k : Int) :
    (st.freeze = some k → 0 ≤ k → freezeOp st = st) ∧
    (st.freeze = some (-1) → unfreezeOp st = st) :=
  ⟨fun hf hk => freezeOp_frozen hf hk,
   fun hf => unfreezeOp_unfrozen hf (by omega)⟩

theorem c9_witness :
    freezeOp stFrozen = stFrozen ∧ unfreezeOp stBar1 = stBar1 :=
  ⟨(c9_freeze_misuse_noop stFrozen 1).1 rfl (by decide),
   (c9_freeze_misuse_noop stBar1 0).2 rfl⟩

/-- C10: freeze() while active with an empty undolog stores
coalesce(max(seq),0) = 0 as the freeze point, so the engine enters the
frozen regime even though no rows were ever logged, and a second freeze()
is rejected as a recursive call: it changes nothing. -/
theorem c10_freeze_empty_log (st : EngineState)
    (hf : st.freeze = some (-1)) (hl : st.log = []) :
    (freezeOp st).freeze = some 0 ∧ freezeOp (freezeOp st) = freezeOp st := by
  have h1 : freezeOp st = { st with freeze := some (maxSeq st.log) } :=
    freezeOp_unfrozen hf (by omega)
  have hm : maxSeq st.log = 0 := by rw [hl]; rfl
  constructor
  · rw [h1]
    show some (maxSeq st.log) = some 0
    rw [hm]
  · rw [h1]
    exact freezeOp_frozen rfl (maxSeq_nonneg st.log)

theorem c10_witness :
    (freezeOp stActive).freeze = some 0 ∧
    freezeOp (freezeOp stActive) = freezeOp stActive :=
  c10_freeze_empty_log stActive rfl rfl

end Claims

end SqlurModel
